import Mathlib

/-!
Verification of `capture_window.py`: a shallow embedding of the script's
pure logic (window lookup, region validation, serial extraction via
regexes, filename sanitization, timestamp fallback) and of the `main`
pipeline as a function from an abstract environment to an exit status
plus an event trace.  Strings are modelled as `List Char`; the Python
regex searches used by the script are embedded as explicit leftmost
backtracking matchers over ASCII word-character semantics.
-/

namespace CaptureWindow

/-- Word character for Python regex word boundaries: alphanumeric or underscore
(ASCII semantics). -/
def isWordChar (c : Char) : Bool := c.isAlphanum || c == '_'

/-- Wordness of an optional character; out of range counts as non-word. -/
def isWordO : Option Char → Bool
  | none => false
  | some c => isWordChar c

/-- Python whitespace class for str.strip and the regex class backslash-s. -/
def isSpaceChar (c : Char) : Bool :=
  c == ' ' || c == '\t' || c == '\n' || c == '\x0d' || c == '\x0b' || c == '\x0c'

/-- Character class of the second serial regex: A-Z, a-z, 0-9 or hyphen. -/
def isClass2 (c : Char) : Bool := c.isAlphanum || c == '-'

/-- First character of the first serial regex: the letter K in either case. -/
def isKChar (c : Char) : Bool := c == 'K' || c == 'k'

/-- Python str.strip(): remove leading and trailing whitespace. -/
def strip (s : List Char) : List Char :=
  ((s.dropWhile isSpaceChar).reverse.dropWhile isSpaceChar).reverse

/-- Python str.lower(), ASCII. -/
def lowerStr (s : List Char) : List Char := s.map Char.toLower

/-- Python substring containment: needle occurs contiguously in hay. -/
def isSubstrOf (needle hay : List Char) : Bool :=
  match hay with
  | [] => needle.isEmpty
  | _ :: t => needle.isPrefixOf hay || isSubstrOf needle t

/-! ### Regex engine for the two serial patterns

Both SERIAL_REGEXES have the form: word boundary, one first character from a
class, then 5 to 20 characters from a second class, then a word boundary.
`re.search` tries start positions left to right; at each position the
quantifier is greedy with backtracking, so candidate lengths are tried from
20 (bounded by the available class run) down to 5, taking the first length
whose following position is a word boundary. -/

/-- Backtracking over the quantifier: try taking `fuel` class characters,
then one fewer, and so on; a size j succeeds when j is between 5 and the
length of the class run and the character after the j-th differs in wordness
from the j-th (a word boundary).  `run` is the maximal class run after the
first character; `rest` is the whole remainder after the first character. -/
def greedyQuant (run rest : List Char) : Nat → Option Nat
  | 0 => none
  | j + 1 =>
    if 5 ≤ j + 1 && decide (j + 1 ≤ run.length)
        && (isWordO (run.get? j) != isWordO (rest.get? (j + 1)))
    then some (j + 1)
    else greedyQuant run rest j

/-- Try to match one pattern at the current position.  `prevW` is the wordness
of the previous character (false at string start), so the leading word
boundary holds exactly when `prevW` is false (the first character of both
patterns is a word character). -/
def matchAt (fOk cOk : Char → Bool) (prevW : Bool) : List Char → Option (List Char)
  | [] => none
  | c :: rest =>
    if !prevW && fOk c then
      let run := rest.takeWhile cOk
      match greedyQuant run rest 20 with
      | some j => some (c :: run.take j)
      | none => none
    else none

/-- Leftmost search: try the pattern at each position in turn. -/
def searchPat (fOk cOk : Char → Bool) (prevW : Bool) : List Char → Option (List Char)
  | [] => none
  | c :: rest =>
    match matchAt fOk cOk prevW (c :: rest) with
    | some m => some m
    | none => searchPat fOk cOk (isWordChar c) rest

/-- Embedding of `regex_pick_serial`: try the strict K pattern
(K or k then 5 to 20 alphanumerics, word-bounded), then the lax pattern
(a letter then 5 to 20 alphanumeric-or-hyphen characters, word-bounded);
return the first match uppercased. -/
def regex_pick_serial (text : List Char) : Option (List Char) :=
  match searchPat isKChar Char.isAlphanum false text with
  | some m => some (m.map Char.toUpper)
  | none =>
    match searchPat Char.isAlpha isClass2 false text with
    | some m => some (m.map Char.toUpper)
    | none => none

/-- Spec-side predicate of claim C1: a token of the form K followed by 8 or
more uppercase alphanumeric or hyphen characters. -/
def specKTok (tok : List Char) : Bool :=
  match tok with
  | [] => false
  | c :: r => c == 'K' && r.all (fun x => x.isUpper || x.isDigit || x == '-') && decide (8 ≤ r.length)

/-- No position of the list carries a pattern start (a word boundary followed
by a first-class character), scanning with previous-character wordness `w`. -/
def noStart (fOk : Char → Bool) : Bool → List Char → Bool
  | _, [] => true
  | w, c :: rest => !(!w && fOk c) && noStart fOk (isWordChar c) rest

/-- Wordness of the last character of the list (`w` when the list is empty). -/
def endWord (w : Bool) : List Char → Bool
  | [] => w
  | c :: rest => endWord (isWordChar c) rest

/-! ### Label-anchored extractor used by the OCR stage

`serial_via_ocr` searches the joined recognized text for the pattern
(carrete|carreté|carrete:) then whitespace then a captured class run of 5 to
20 alphanumeric-or-hyphen characters, case-insensitively, and returns group 2
uppercased.  The alternatives are tried left to right at each position; the
quantifier greedily captures at most 20 class characters (no trailing word
boundary in this pattern). -/

/-- The three label alternatives, as the regex writes them. -/
def altPlain : List Char := ['c', 'a', 'r', 'r', 'e', 't', 'e']

/-- Label alternative with an accented final e. -/
def altAccent : List Char := ['c', 'a', 'r', 'r', 'e', 't', 'é']

/-- Label alternative with a trailing colon. -/
def altColon : List Char := ['c', 'a', 'r', 'r', 'e', 't', 'e', ':']

/-- Case-insensitive list prefix test (ASCII case folding). -/
def ciIsPrefixOf : List Char → List Char → Bool
  | [], _ => true
  | _ :: _, [] => false
  | p :: ps, c :: cs => (p.toLower == c.toLower) && ciIsPrefixOf ps cs

/-- Match one alternative at the current position: the literal label
case-insensitively, then maximal whitespace, then a class run of which at
least 5 characters must exist; capture at most 20 of them, uppercased. -/
def matchAltAt (alt cs : List Char) : Option (List Char) :=
  if ciIsPrefixOf alt cs then
    let rest := (cs.drop alt.length).dropWhile isSpaceChar
    let run := rest.takeWhile isClass2
    if 5 ≤ run.length then some ((run.take 20).map Char.toUpper) else none
  else none

/-- Try the three alternatives in the regex's order at one position. -/
def matchLabelAt (cs : List Char) : Option (List Char) :=
  match matchAltAt altPlain cs with
  | some m => some m
  | none =>
    match matchAltAt altAccent cs with
    | some m => some m
    | none => matchAltAt altColon cs

/-- Leftmost search for the label pattern. -/
def searchLabel : List Char → Option (List Char)
  | [] => none
  | c :: rest =>
    match matchLabelAt (c :: rest) with
    | some m => some m
    | none => searchLabel rest

/-- The label search finds nothing starting inside `pre` when the rest of the
text is `z` (every suffix position of `pre`, continued by `z`, fails). -/
def labelSkips : List Char → List Char → Bool
  | [], _ => true
  | c :: p, z => !(matchLabelAt (c :: (p ++ z))).isSome && labelSkips p z

/-- Split on newline characters (Python splitlines, up to trailing-empty
differences that the subsequent non-empty filter erases). -/
def splitOnNl : List Char → List (List Char)
  | [] => [[]]
  | c :: rest =>
    if c == '\n' then [] :: splitOnNl rest
    else
      match splitOnNl rest with
      | x :: xs => (c :: x) :: xs
      | [] => [[c]]

/-- Normalization done by `serial_via_ocr` before the regex searches:
strip each line, drop empty lines, join with single spaces. -/
def joinedText (t : List Char) : List Char :=
  List.intercalate [' '] (((splitOnNl t).map strip).filter (fun l => !l.isEmpty))

/-- Embedding of `serial_via_ocr` downstream of the recognizer: `txt` is the
text the OCR engine produced (`none` when OCR is unavailable or the
recognition call raised).  Empty text yields nothing; otherwise the
label-anchored extractor is tried on the joined text, then the general
`regex_pick_serial`. -/
def serial_via_ocr (txt : Option (List Char)) : Option (List Char) :=
  match txt with
  | none => none
  | some t =>
    if t.isEmpty then none
    else
      match searchLabel (joinedText t) with
      | some m => some m
      | none => regex_pick_serial (joinedText t)

/-! ### Output path and timestamp fallback -/

/-- Characters the sanitizer keeps: A-Z, a-z, 0-9, dot, underscore, hyphen. -/
def allowedChar (c : Char) : Bool := c.isAlphanum || c == '.' || c == '_' || c == '-'

/-- Embedding of re.sub replacing every character outside the allowed class
with an underscore, scanning left to right. -/
def sanitizeSerial : List Char → List Char
  | [] => []
  | c :: rest => (if allowedChar c then c else '_') :: sanitizeSerial rest

/-- Path.joinpath modelled as slash concatenation. -/
def joinPath (dir name : List Char) : List Char := dir ++ '/' :: name

/-- Embedding of `decide_output_path`: sanitize the serial and append the
fixed extension under the output directory. -/
def decide_output_path (outdir serial : List Char) : List Char :=
  joinPath outdir (sanitizeSerial serial ++ ['.', 'j', 'p', 'g'])

/-- Local wall-clock time at second precision. -/
structure LocalTime where
  year : Nat
  month : Nat
  day : Nat
  hour : Nat
  minute : Nat
  second : Nat
deriving DecidableEq

/-- Decimal digits of `n` zero-padded on the left to width `w`
(strftime field semantics). -/
def padDigits (w n : Nat) : List Char :=
  let d := Nat.toDigits 10 n
  List.replicate (w - d.length) '0' ++ d

/-- Embedding of time.strftime with format captura underscore Y m d
underscore H M S. -/
def timestampName (t : LocalTime) : List Char :=
  ['c', 'a', 'p', 't', 'u', 'r', 'a', '_'] ++ padDigits 4 t.year ++ padDigits 2 t.month
    ++ padDigits 2 t.day ++ ['_'] ++ padDigits 2 t.hour ++ padDigits 2 t.minute
    ++ padDigits 2 t.second

/-! ### Window model and lookup -/

/-- A top-level window as pygetwindow exposes it: a title and a screen-space
bounding rectangle. -/
structure Window where
  title : List Char
  left : Int
  top : Int
  right : Int
  bottom : Int
deriving DecidableEq

/-- Environment of one run: the enumerable windows, the active window, the
filesystem and external-stage outcomes, and the current local time. -/
structure Env where
  windows : List Window
  active : Option Window
  outdirExists : Bool
  mkdirOk : Bool
  accessSerial : Option (List Char)
  ocrText : Option (List Char)
  screenshotOk : Bool
  saveOk : Bool
  now : LocalTime
deriving DecidableEq

/-- Command-line arguments the pipeline consumes. -/
structure Args where
  title : Option (List Char)
  outdir : List Char
  serial : Option (List Char)
deriving DecidableEq

/-- Embedding of `find_window`: no title returns the active window; otherwise
the first window whose stripped title equals the stripped request, else the
first whose lowercased title contains the lowercased request, else none. -/
def find_window (env : Env) (t : Option (List Char)) : Option Window :=
  match t with
  | none => env.active
  | some ts =>
    match (env.windows.filter (fun w => strip w.title == strip ts)).head? with
    | some w => some w
    | none =>
      (env.windows.filter (fun w => isSubstrOf (lowerStr ts) (lowerStr w.title))).head?

/-- Embedding of `get_window_box`: clamp width and height at zero and reject
regions thinner than 10 pixels in either dimension (the ValueError branch
becomes `none`). -/
def get_window_box (w : Window) : Option (Int × Int × Int × Int) :=
  let wd := max 0 (w.right - w.left)
  let ht := max 0 (w.bottom - w.top)
  if wd < 10 ∨ ht < 10 then none else some (w.left, w.top, wd, ht)

/-! ### The main pipeline as a trace-producing function -/

/-- Observable events of one run. -/
inductive Event where
  | mkdirOut
  | screenshotCall
  | accessCall
  | ocrCall
  | warnNoSerial
  | fileWrite (path : List Char)
deriving DecidableEq

/-- How the process ends: a normal exit code, or an uncaught exception
(the screenshot RuntimeError is not caught by main). -/
inductive ExitStatus where
  | exit (code : Nat)
  | crash
deriving DecidableEq

/-- Python truthiness of an optional string: some non-empty list. -/
def truthy : Option (List Char) → Bool
  | some (_ :: _) => true
  | _ => false

/-- Embedding of `main`: ensure the output directory, locate the window,
validate its region, capture, run the serial fallback chain (override, then
accessibility, then OCR, then timestamp), and save.  Returns the exit status
and the ordered event trace. -/
def runMain (env : Env) (args : Args) : ExitStatus × List Event :=
  if !env.outdirExists && !env.mkdirOk then (ExitStatus.exit 5, [])
  else
    let ev0 : List Event := if env.outdirExists then [] else [Event.mkdirOut]
    match find_window env args.title with
    | none => (ExitStatus.exit 2, ev0)
    | some w =>
      match get_window_box w with
      | none => (ExitStatus.exit 3, ev0)
      | some _ =>
        if !env.screenshotOk then (ExitStatus.crash, ev0 ++ [Event.screenshotCall])
        else
          let ev1 := ev0 ++ [Event.screenshotCall]
          let s0 := args.serial
          let (sA, evA) :=
            if truthy s0 then (s0, ev1) else (env.accessSerial, ev1 ++ [Event.accessCall])
          let (sB, evB) :=
            if truthy sA then (sA, evA)
            else (serial_via_ocr env.ocrText, evA ++ [Event.ocrCall])
          let (outfile, evC) :=
            if truthy sB then (decide_output_path args.outdir (sB.getD []), evB)
            else (joinPath args.outdir (timestampName env.now ++ ['.', 'j', 'p', 'g']),
                  evB ++ [Event.warnNoSerial])
          if env.saveOk then (ExitStatus.exit 0, evC ++ [Event.fileWrite outfile])
          else (ExitStatus.exit 4, evC)

/-! ### Helper lemmas -/

/-- takeWhile over an append: when every element of the left part satisfies
the predicate and the head of the right part does not, exactly the left part
is taken. -/
theorem takeWhile_append_all (p : Char → Bool) (xs ys : List Char)
    (hxs : ∀ c ∈ xs, p c = true)
    (hys : ∀ c, ys.head? = some c → p c = false) :
    (xs ++ ys).takeWhile p = xs := by
  induction xs with
  | nil =>
    cases ys with
    | nil => rfl
    | cons y t =>
      have hy := hys y rfl
      simp [List.takeWhile_cons, hy]
  | cons x t ih =>
    have hx := hxs x (by simp)
    have ih2 := ih (fun c hc => hxs c (by simp [hc]))
    simp [List.takeWhile_cons, hx, ih2]

/-- dropWhile keeps a list whose head fails the predicate. -/
theorem dropWhile_of_head_neg (p : Char → Bool) (xs : List Char)
    (h : ∀ c, xs.head? = some c → p c = false) :
    xs.dropWhile p = xs := by
  cases xs with
  | nil => rfl
  | cons x t => simp [List.dropWhile_cons, h x rfl]

/-- Sanitizer output: every character is in the allowed class. -/
theorem sanitizeSerial_all_allowed (s : List Char) :
    (sanitizeSerial s).all allowedChar = true := by
  induction s with
  | nil => rfl
  | cons c t ih =>
    by_cases hc : allowedChar c = true
    · simp [sanitizeSerial, hc, ih]
    · simp [sanitizeSerial, hc, ih]
      decide

/-- Sanitizer output characterized position by position. -/
theorem sanitizeSerial_get? (s : List Char) (i : Nat) :
    (sanitizeSerial s).get? i = (s.get? i).map (fun c => if allowedChar c then c else '_') := by
  induction s generalizing i with
  | nil => simp [sanitizeSerial]
  | cons c t ih =>
    cases i with
    | zero => simp [sanitizeSerial]
    | succ j => simpa [sanitizeSerial] using ih j

/-- The head of a filtered list decomposes the list into a rejected part, the
first accepted element, and the remainder. -/
theorem filter_head?_decomp (p : Window → Bool) (l : List Window) (a : Window)
    (h : (l.filter p).head? = some a) :
    ∃ l1 l2, l = l1 ++ a :: l2 ∧ p a = true ∧ ∀ u ∈ l1, p u = false := by
  induction l with
  | nil => simp at h
  | cons x t ih =>
    by_cases hx : p x = true
    · rw [List.filter_cons, if_pos hx] at h
      simp only [List.head?] at h
      refine ⟨[], t, ?_, ?_, ?_⟩
      · simp_all
      · simp_all
      · simp
    · rw [List.filter_cons, if_neg hx] at h
      obtain ⟨l1, l2, hl, hpa, hl1⟩ := ih h
      refine ⟨x :: l1, l2, by simp [hl], hpa, ?_⟩
      intro u hu
      rcases List.mem_cons.mp hu with h1 | h1
      · subst h1; simpa using hx
      · exact hl1 u h1

/-- A list that contains an accepted element has a filtered head. -/
theorem filter_head?_isSome (p : Window → Bool) (l : List Window) (x : Window)
    (hx : x ∈ l) (hpx : p x = true) : ∃ a, (l.filter p).head? = some a := by
  induction l with
  | nil => simp at hx
  | cons y t ih =>
    by_cases hy : p y = true
    · exact ⟨y, by rw [List.filter_cons, if_pos hy]; rfl⟩
    · rcases List.mem_cons.mp hx with h1 | h1
      · subst h1; simp_all
      · obtain ⟨a, ha⟩ := ih h1
        exact ⟨a, by rw [List.filter_cons, if_neg hy]; exact ha⟩

/-! ### Claim theorems -/

/-- C6: for every serial string, the sanitized output filename contains only
characters from the class A-Za-z0-9 dot underscore hyphen, each character
outside the class being replaced by an underscore, with the fixed extension
jpg appended; on the example AB slash 12 colon 34 the filename is
AB_12_34.jpg. -/
theorem C6_sanitized_filename (outdir s : List Char) :
    decide_output_path outdir s = outdir ++ '/' :: (sanitizeSerial s ++ ['.', 'j', 'p', 'g'])
    ∧ (sanitizeSerial s ++ ['.', 'j', 'p', 'g']).all allowedChar = true
    ∧ (∀ i : Nat, (sanitizeSerial s).get? i
        = (s.get? i).map (fun c => if allowedChar c then c else '_'))
    ∧ decide_output_path ("out".toList) ("AB/12:34".toList) = ("out/AB_12_34.jpg").toList := by
  refine ⟨rfl, ?_, sanitizeSerial_get? s, by decide⟩
  rw [List.all_append, sanitizeSerial_all_allowed]
  decide

/-- C3: for every window whose clamped width or height is below 10, the
region computation fails, the run exits with status 3, and neither a
screenshot nor an output file is produced. -/
theorem C3_invalid_region (env : Env) (args : Args) (w : Window)
    (hdir : (env.outdirExists || env.mkdirOk) = true)
    (hfind : find_window env args.title = some w)
    (hsmall : max 0 (w.right - w.left) < 10 ∨ max 0 (w.bottom - w.top) < 10) :
    get_window_box w = none
    ∧ (runMain env args).1 = ExitStatus.exit 3
    ∧ (∀ p, Event.fileWrite p ∉ (runMain env args).2)
    ∧ Event.screenshotCall ∉ (runMain env args).2 := by
  have hbox : get_window_box w = none := by
    unfold get_window_box
    simp only [if_pos hsmall]
  have hnd : (!env.outdirExists && !env.mkdirOk) = false := by
    cases h1 : env.outdirExists <;> cases h2 : env.mkdirOk <;> simp_all
  have hrun : runMain env args
      = (ExitStatus.exit 3, if env.outdirExists then [] else [Event.mkdirOut]) := by
    unfold runMain
    rw [hnd, hfind]
    simp [hbox]
  refine ⟨hbox, by rw [hrun], ?_, ?_⟩
  · intro p
    rw [hrun]
    cases env.outdirExists <;> simp
  · rw [hrun]
    cases env.outdirExists <;> simp

/-- C3 witness at a concrete degenerate window. -/
theorem C3_invalid_region_witness :
    (runMain
      { windows := [{ title := ("w".toList), left := 0, top := 0, right := 5, bottom := 600 }],
        active := none, outdirExists := true, mkdirOk := true, accessSerial := none,
        ocrText := none, screenshotOk := true, saveOk := true,
        now := { year := 2026, month := 10, day := 12, hour := 0, minute := 0, second := 0 } }
      { title := some ("w".toList), outdir := ("img".toList), serial := none }).1
      = ExitStatus.exit 3 :=
  (C3_invalid_region _ _
    { title := ("w".toList), left := 0, top := 0, right := 5, bottom := 600 }
    (by decide) (by decide) (by decide)).2.1

/-- C8: when no window matches the requested title, the run exits with
status 2 and writes no file. -/
theorem C8_window_not_found (env : Env) (args : Args)
    (hdir : (env.outdirExists || env.mkdirOk) = true)
    (hfind : find_window env args.title = none) :
    (runMain env args).1 = ExitStatus.exit 2
    ∧ ∀ p, Event.fileWrite p ∉ (runMain env args).2 := by
  have hnd : (!env.outdirExists && !env.mkdirOk) = false := by
    cases h1 : env.outdirExists <;> cases h2 : env.mkdirOk <;> simp_all
  have hrun : runMain env args
      = (ExitStatus.exit 2, if env.outdirExists then [] else [Event.mkdirOut]) := by
    unfold runMain
    rw [hnd, hfind]
    simp
  refine ⟨by rw [hrun], ?_⟩
  intro p
  rw [hrun]
  cases env.outdirExists <;> simp

/-- C8 witness: empty window set. -/
theorem C8_window_not_found_witness :
    (runMain
      { windows := [], active := none, outdirExists := true, mkdirOk := true,
        accessSerial := none, ocrText := none, screenshotOk := true, saveOk := true,
        now := { year := 2026, month := 10, day := 12, hour := 0, minute := 0, second := 0 } }
      { title := some ("w".toList), outdir := ("img".toList), serial := none }).1
      = ExitStatus.exit 2 :=
  (C8_window_not_found _ _ (by decide) (by decide)).1

/-- C10: the output directory is created before the window is located or the
region validated, so a run that exits with status 2 or with status 3 still
records the directory creation while writing no file. -/
theorem C10_mkdir_precedes_lookup (env : Env) (args : Args)
    (hne : env.outdirExists = false) (hmk : env.mkdirOk = true) :
    (find_window env args.title = none →
      (runMain env args).1 = ExitStatus.exit 2
      ∧ Event.mkdirOut ∈ (runMain env args).2
      ∧ ∀ p, Event.fileWrite p ∉ (runMain env args).2)
    ∧ (∀ w, find_window env args.title = some w → get_window_box w = none →
      (runMain env args).1 = ExitStatus.exit 3
      ∧ Event.mkdirOut ∈ (runMain env args).2
      ∧ ∀ p, Event.fileWrite p ∉ (runMain env args).2) := by
  have hnd : (!env.outdirExists && !env.mkdirOk) = false := by
    rw [hne, hmk]; rfl
  constructor
  · intro hfail
    have hrun : runMain env args = (ExitStatus.exit 2, [Event.mkdirOut]) := by
      unfold runMain
      rw [hnd, hfail, hne]
      simp
    rw [hrun]
    refine ⟨rfl, by simp, by simp⟩
  · intro w hfind hbox
    have hrun : runMain env args = (ExitStatus.exit 3, [Event.mkdirOut]) := by
      unfold runMain
      rw [hnd, hfind, hne]
      simp [hbox]
    rw [hrun]
    refine ⟨rfl, by simp, by simp⟩

/-- C10 witness: missing directory plus missing window leaves the created
directory behind on an exit-2 run. -/
theorem C10_mkdir_precedes_lookup_witness :
    (runMain
      { windows := [], active := none, outdirExists := false, mkdirOk := true,
        accessSerial := none, ocrText := none, screenshotOk := true, saveOk := true,
        now := { year := 2026, month := 10, day := 12, hour := 0, minute := 0, second := 0 } }
      { title := some ("w".toList), outdir := ("img".toList), serial := none }).1
      = ExitStatus.exit 2 :=
  ((C10_mkdir_precedes_lookup _ _ rfl rfl).1 (by decide)).1

/-- C5 counterexample: supplying the explicit override with the empty string
is falsy in Python, so the accessibility stage runs anyway and the filename
comes from its result, not from the override. -/
theorem C5_counterexample :
    (runMain
      { windows := [{ title := ("w".toList), left := 0, top := 0, right := 800, bottom := 600 }],
        active := none, outdirExists := true, mkdirOk := true,
        accessSerial := some ("KZZ999".toList), ocrText := none, screenshotOk := true,
        saveOk := true,
        now := { year := 2026, month := 10, day := 12, hour := 0, minute := 0, second := 0 } }
      { title := some ("w".toList), outdir := ("img".toList), serial := some [] }).2
    = [Event.screenshotCall, Event.accessCall, Event.fileWrite ("img/KZZ999.jpg".toList)] := by
  decide

/-- C5 amended: whenever a non-empty explicit serial override is supplied,
neither the accessibility stage nor the OCR stage is invoked, and any file
written has the path derived from the override value alone. -/
theorem C5_override_skips_stages (env : Env) (args : Args) (s : List Char)
    (hs : args.serial = some s) (hne : s ≠ []) :
    Event.accessCall ∉ (runMain env args).2
    ∧ Event.ocrCall ∉ (runMain env args).2
    ∧ ∀ p, Event.fileWrite p ∈ (runMain env args).2 → p = decide_output_path args.outdir s := by
  obtain ⟨c, t, rfl⟩ : ∃ c t, s = c :: t := by
    cases s with
    | nil => exact absurd rfl hne
    | cons c t => exact ⟨c, t, rfl⟩
  unfold runMain
  rw [hs]
  by_cases h1 : (!env.outdirExists && !env.mkdirOk) = true
  · rw [if_pos h1]
    simp
  · rw [if_neg h1]
    cases hfw : find_window env args.title with
    | none =>
      simp only []
      cases env.outdirExists <;> simp
    | some w =>
      cases hbox : get_window_box w with
      | none =>
        simp only []
        cases env.outdirExists <;> simp [hbox]
      | some r =>
        by_cases hshot : (!env.screenshotOk) = true
        · simp only [hbox, if_pos hshot]
          cases env.outdirExists <;> simp
        · simp only [hbox, if_neg hshot, truthy]
          by_cases hsave : env.saveOk = true
          · simp only [if_pos hsave]
            cases env.outdirExists <;> simp
          · simp only [if_neg hsave]
            cases env.outdirExists <;> simp

/-- C5 witness: a non-empty override produces only the screenshot and write
events and the override-derived path. -/
theorem C5_override_skips_stages_witness :
    Event.accessCall ∉
      (runMain
        { windows := [{ title := ("w".toList), left := 0, top := 0, right := 800, bottom := 600 }],
          active := none, outdirExists := true, mkdirOk := true,
          accessSerial := some ("KZZ999".toList), ocrText := none, screenshotOk := true,
          saveOk := true,
          now := { year := 2026, month := 10, day := 12, hour := 0, minute := 0, second := 0 } }
        { title := some ("w".toList), outdir := ("img".toList),
          serial := some ("K900302392".toList) }).2 :=
  (C5_override_skips_stages _ _ ("K900302392".toList) rfl (by decide)).1

/-- C7: with a valid window and region but no override, no accessibility
result and no OCR result, the run warns, writes the timestamp-named file and
exits with status 0. -/
theorem C7_timestamp_fallback (env : Env) (args : Args) (w : Window)
    (r : Int × Int × Int × Int)
    (hdir : (env.outdirExists || env.mkdirOk) = true)
    (hfind : find_window env args.title = some w)
    (hbox : get_window_box w = some r)
    (hshot : env.screenshotOk = true)
    (hser : args.serial = none)
    (hacc : env.accessSerial = none)
    (hocr : serial_via_ocr env.ocrText = none)
    (hsave : env.saveOk = true) :
    (runMain env args).1 = ExitStatus.exit 0
    ∧ Event.warnNoSerial ∈ (runMain env args).2
    ∧ Event.fileWrite (joinPath args.outdir (timestampName env.now ++ ['.', 'j', 'p', 'g']))
        ∈ (runMain env args).2 := by
  have hnd : (!env.outdirExists && !env.mkdirOk) = false := by
    cases h1 : env.outdirExists <;> cases h2 : env.mkdirOk <;> simp_all
  have hrun : runMain env args
      = (ExitStatus.exit 0,
          (if env.outdirExists then [] else [Event.mkdirOut])
            ++ [Event.screenshotCall, Event.accessCall, Event.ocrCall, Event.warnNoSerial,
                Event.fileWrite
                  (joinPath args.outdir (timestampName env.now ++ ['.', 'j', 'p', 'g']))]) := by
    unfold runMain
    rw [hnd, hfind]
    simp [hbox, hshot, hser, hacc, hocr, hsave, truthy]
  rw [hrun]
  refine ⟨rfl, ?_, ?_⟩ <;> cases env.outdirExists <;> simp

/-- C7 witness: a concrete run with no extraction source writes the
timestamp file. -/
theorem C7_timestamp_fallback_witness :
    Event.fileWrite ("img/captura_20261012_090503.jpg".toList) ∈
      (runMain
        { windows := [{ title := ("w".toList), left := 0, top := 0, right := 800, bottom := 600 }],
          active := none, outdirExists := true, mkdirOk := true, accessSerial := none,
          ocrText := none, screenshotOk := true, saveOk := true,
          now := { year := 2026, month := 10, day := 12, hour := 9, minute := 5, second := 3 } }
        { title := some ("w".toList), outdir := ("img".toList), serial := none }).2 := by
  have h := (C7_timestamp_fallback
    { windows := [{ title := ("w".toList), left := 0, top := 0, right := 800, bottom := 600 }],
      active := none, outdirExists := true, mkdirOk := true, accessSerial := none,
      ocrText := none, screenshotOk := true, saveOk := true,
      now := { year := 2026, month := 10, day := 12, hour := 9, minute := 5, second := 3 } }
    { title := some ("w".toList), outdir := ("img".toList), serial := none }
    { title := ("w".toList), left := 0, top := 0, right := 800, bottom := 600 }
    (0, 0, 800, 600) rfl (by decide) (by decide) rfl rfl rfl rfl rfl).2.2
  simpa using h

/-- C4: with no title the locator returns the active window; an exact match
on trimmed titles is returned first, in enumeration order, in preference to
any substring match; with no exact match the first case-insensitive
substring match is returned; with neither, nothing is found. -/
theorem C4_find_window (env : Env) (ts : List Char) :
    (find_window env none = env.active)
    ∧ (∀ w ∈ env.windows, strip w.title = strip ts →
        ∃ w2 l1 l2, find_window env (some ts) = some w2
          ∧ env.windows = l1 ++ w2 :: l2
          ∧ strip w2.title = strip ts
          ∧ ∀ u ∈ l1, strip u.title ≠ strip ts)
    ∧ ((∀ w ∈ env.windows, strip w.title ≠ strip ts) →
        ∀ w ∈ env.windows, isSubstrOf (lowerStr ts) (lowerStr w.title) = true →
        ∃ w2 l1 l2, find_window env (some ts) = some w2
          ∧ env.windows = l1 ++ w2 :: l2
          ∧ isSubstrOf (lowerStr ts) (lowerStr w2.title) = true
          ∧ ∀ u ∈ l1, isSubstrOf (lowerStr ts) (lowerStr u.title) = false)
    ∧ ((∀ w ∈ env.windows, strip w.title ≠ strip ts) →
        (∀ w ∈ env.windows, isSubstrOf (lowerStr ts) (lowerStr w.title) = false) →
        find_window env (some ts) = none) := by
  refine ⟨rfl, ?_, ?_, ?_⟩
  · intro w hw hstrip
    obtain ⟨a, ha⟩ := filter_head?_isSome (fun u => strip u.title == strip ts) env.windows w hw
      (by simpa using hstrip)
    obtain ⟨l1, l2, hl, hpa, hl1⟩ :=
      filter_head?_decomp (fun u => strip u.title == strip ts) env.windows a ha
    refine ⟨a, l1, l2, ?_, hl, by simpa using hpa, ?_⟩
    · show find_window env (some ts) = some a
      simp only [find_window]
      rw [ha]
    · intro u hu
      have := hl1 u hu
      simpa using this
  · intro hnoex w hw hsub
    have hex : (env.windows.filter (fun u => strip u.title == strip ts)).head? = none := by
      have : env.windows.filter (fun u => strip u.title == strip ts) = [] := by
        rw [List.filter_eq_nil_iff]
        intro a haw
        simpa using hnoex a haw
      rw [this]
      rfl
    obtain ⟨a, ha⟩ := filter_head?_isSome
      (fun u => isSubstrOf (lowerStr ts) (lowerStr u.title)) env.windows w hw hsub
    obtain ⟨l1, l2, hl, hpa, hl1⟩ := filter_head?_decomp
      (fun u => isSubstrOf (lowerStr ts) (lowerStr u.title)) env.windows a ha
    refine ⟨a, l1, l2, ?_, hl, hpa, ?_⟩
    · show find_window env (some ts) = some a
      simp only [find_window]
      rw [hex, ha]
    · intro u hu
      simpa using hl1 u hu
  · intro hnoex hnosub
    have hex : (env.windows.filter (fun u => strip u.title == strip ts)).head? = none := by
      have : env.windows.filter (fun u => strip u.title == strip ts) = [] := by
        rw [List.filter_eq_nil_iff]
        intro a haw
        simpa using hnoex a haw
      rw [this]
      rfl
    have hsub : (env.windows.filter
        (fun u => isSubstrOf (lowerStr ts) (lowerStr u.title))).head? = none := by
      have : env.windows.filter (fun u => isSubstrOf (lowerStr ts) (lowerStr u.title)) = [] := by
        rw [List.filter_eq_nil_iff]
        intro a haw
        simp [hnosub a haw]
      rw [this]
      rfl
    show find_window env (some ts) = none
    simp only [find_window]
    rw [hex, hsub]

/-- C4 witness: the exact match is preferred even when a substring match
comes first in enumeration order. -/
theorem C4_find_window_witness :
    ∃ w2 l1 l2,
      find_window
        { windows :=
            [{ title := ("x Pedido x".toList), left := 0, top := 0, right := 8, bottom := 8 },
             { title := ("Pedido".toList), left := 1, top := 1, right := 9, bottom := 9 }],
          active := none, outdirExists := true, mkdirOk := true, accessSerial := none,
          ocrText := none, screenshotOk := true, saveOk := true,
          now := { year := 2026, month := 10, day := 12, hour := 0, minute := 0, second := 0 } }
        (some ("Pedido".toList)) = some w2
      ∧ [{ title := ("x Pedido x".toList), left := 0, top := 0, right := 8, bottom := 8 },
         { title := ("Pedido".toList), left := 1, top := 1, right := 9, bottom := 9 }]
          = l1 ++ w2 :: l2
      ∧ strip w2.title = strip ("Pedido".toList)
      ∧ ∀ u ∈ l1, strip u.title ≠ strip ("Pedido".toList) :=
  (C4_find_window _ ("Pedido".toList)).2.1
    { title := ("Pedido".toList), left := 1, top := 1, right := 9, bottom := 9 }
    (by decide) (by decide)

/-! ### Regex search lemmas -/

/-- When the fuel exceeds the run length the top size candidate fails. -/
theorem greedyQuant_step (run rest : List Char) (j : Nat) (h : run.length ≤ j) :
    greedyQuant run rest (j + 1) = greedyQuant run rest j := by
  have hd : decide (j + 1 ≤ run.length) = false := by
    simp
    omega
  simp only [greedyQuant]
  rw [hd]
  simp

/-- With at least 5 run characters and a word boundary right after the run,
the greedy quantifier settles on exactly the run length. -/
theorem greedyQuant_base (run rest : List Char)
    (h5 : 5 ≤ run.length)
    (hbdry : (isWordO (run.get? (run.length - 1)) != isWordO (rest.get? run.length)) = true) :
    greedyQuant run rest run.length = some run.length := by
  obtain ⟨k, hk⟩ : ∃ k, run.length = k + 1 := ⟨run.length - 1, by omega⟩
  rw [hk]
  simp only [greedyQuant]
  have c1 : decide (5 ≤ k + 1) = true := by
    simp
    omega
  have c2 : decide (k + 1 ≤ run.length) = true := by
    simp
    omega
  have c3 : (isWordO (run.get? k) != isWordO (rest.get? (k + 1))) = true := by
    have e1 : run.length - 1 = k := by omega
    rw [e1] at hbdry
    rw [hk] at hbdry
    exact hbdry
  rw [c1, c2, c3]
  simp

/-- Combined greedy lemma for any fuel at least the run length. -/
theorem greedyQuant_exact (run rest : List Char)
    (h5 : 5 ≤ run.length)
    (hbdry : (isWordO (run.get? (run.length - 1)) != isWordO (rest.get? run.length)) = true) :
    ∀ fuel, run.length ≤ fuel → greedyQuant run rest fuel = some run.length := by
  intro fuel
  induction fuel with
  | zero => intro h; omega
  | succ j ih =>
    intro hle
    rcases Nat.lt_or_ge j run.length with hlt | hge
    · have heq : run.length = j + 1 := by omega
      rw [← heq]
      exact greedyQuant_base run rest h5 hbdry
    · rw [greedyQuant_step run rest j hge]
      exact ih hge

/-- A word-bounded token whose characters fill the class and whose right
context leaves the class and the word set matches exactly, at its own
position. -/
theorem matchAt_token (fOk cOk : Char → Bool) (c : Char) (rest suf : List Char)
    (hf : fOk c = true)
    (hrest : ∀ x ∈ rest, cOk x = true)
    (h5 : 5 ≤ rest.length) (h20 : rest.length ≤ 20)
    (hsufc : ∀ x, suf.head? = some x → cOk x = false)
    (hlast : isWordO (rest.get? (rest.length - 1)) = true)
    (hsufw : isWordO suf.head? = false) :
    matchAt fOk cOk false (c :: (rest ++ suf)) = some (c :: rest) := by
  have hrun : (rest ++ suf).takeWhile cOk = rest := takeWhile_append_all cOk rest suf hrest hsufc
  have hget : (rest ++ suf).get? rest.length = suf.head? := by
    rw [List.get?_eq_getElem?, List.getElem?_append_right (le_refl rest.length)]
    simp [List.head?_eq_getElem?]
  have hbdry : (isWordO (rest.get? (rest.length - 1))
      != isWordO ((rest ++ suf).get? rest.length)) = true := by
    rw [hget, hlast, hsufw]
    rfl
  have hgq : greedyQuant rest (rest ++ suf) 20 = some rest.length :=
    greedyQuant_exact rest (rest ++ suf) h5 hbdry 20 h20
  have hcond : (!false && fOk c) = true := by rw [hf]; rfl
  simp only [matchAt]
  rw [if_pos hcond]
  simp only [hrun, hgq, List.take_length]

/-- The leftmost search skips a region with no pattern start and continues
with the wordness of that region's last character. -/
theorem searchPat_append_noStart (fOk cOk : Char → Bool) (pre : List Char) :
    ∀ (w : Bool) (z : List Char), noStart fOk w pre = true →
    searchPat fOk cOk w (pre ++ z) = searchPat fOk cOk (endWord w pre) z := by
  induction pre with
  | nil => intro w z _; rfl
  | cons c p ih =>
    intro w z h
    unfold noStart at h
    rw [Bool.and_eq_true] at h
    obtain ⟨h1, h2⟩ := h
    have h1f : (!w && fOk c) = false := by
      cases hcv : (!w && fOk c)
      · rfl
      · rw [hcv] at h1
        simp at h1
    have hmat : matchAt fOk cOk w (c :: (p ++ z)) = none := by
      simp only [matchAt]
      rw [h1f]
      simp
    show searchPat fOk cOk w (c :: (p ++ z)) = _
    simp only [searchPat, hmat]
    exact ih (isWordChar c) z h2

/-- C1 counterexample: three concrete strings each containing a token of the
claimed shape K followed by 8 or more uppercase alphanumeric or hyphen
characters, on which `regex_pick_serial` does not return that token: a token
longer than 20 characters after the K yields nothing, a hyphenated token is
truncated at the hyphen, and an earlier shorter K-word wins the leftmost
search. -/
theorem C1_counterexample :
    (specKTok ("KAAAAAAAAAAAAAAAAAAAAA".toList) = true
      ∧ regex_pick_serial ("KAAAAAAAAAAAAAAAAAAAAA".toList) = none)
    ∧ (specKTok ("KABCDEFG-H".toList) = true
      ∧ regex_pick_serial ("KABCDEFG-H".toList) = some ("KABCDEFG".toList))
    ∧ (specKTok ("KABCDEFGH".toList) = true
      ∧ regex_pick_serial ("KABCDE KABCDEFGH".toList) = some ("KABCDE".toList)) := by
  decide

/-- C1 amended: for every input string containing a word-bounded token K
followed by 8 to 20 uppercase alphanumeric characters (no hyphens), where no
earlier position offers a word-boundary-preceded K or k, the general regex
extractor returns that token uppercased. -/
theorem C1_regex_K_token (pre rest suf : List Char)
    (hrest : rest.all (fun x => x.isUpper || x.isDigit) = true)
    (h8 : 8 ≤ rest.length) (h20 : rest.length ≤ 20)
    (hpre : noStart isKChar false pre = true)
    (hprew : endWord false pre = false)
    (hsufw : isWordO suf.head? = false) :
    regex_pick_serial (pre ++ ('K' :: (rest ++ suf)))
      = some (('K' :: rest).map Char.toUpper) := by
  have hrest2 : ∀ x ∈ rest, Char.isAlphanum x = true := by
    intro x hx
    have hx2 := List.all_eq_true.mp hrest x hx
    rw [Bool.or_eq_true] at hx2
    rcases hx2 with h | h
    · simp [Char.isAlphanum, Char.isAlpha, h]
    · simp [Char.isAlphanum, h]
  have hsufc : ∀ x, suf.head? = some x → Char.isAlphanum x = false := by
    intro x hx
    rw [hx] at hsufw
    simp only [isWordO, isWordChar, Bool.or_eq_false_iff] at hsufw
    exact hsufw.1
  have hlast : isWordO (rest.get? (rest.length - 1)) = true := by
    have hlt : rest.length - 1 < rest.length := by omega
    rw [List.get?_eq_getElem?, List.getElem?_eq_getElem hlt]
    have hm := List.getElem_mem hlt
    have := hrest2 _ hm
    simp only [isWordO, isWordChar]
    rw [this]
    rfl
  have hm := matchAt_token isKChar Char.isAlphanum 'K' rest suf (by decide) hrest2
    (by omega) h20 hsufc hlast hsufw
  have hK : searchPat isKChar Char.isAlphanum false (pre ++ ('K' :: (rest ++ suf)))
      = some ('K' :: rest) := by
    rw [searchPat_append_noStart isKChar Char.isAlphanum pre false _ hpre, hprew]
    simp only [searchPat, hm]
  simp only [regex_pick_serial, hK]

/-- C1 witness: a concrete prefixed occurrence of a valid K token. -/
theorem C1_regex_K_token_witness :
    regex_pick_serial ("num: KABCDEFGH".toList) = some ("KABCDEFGH".toList) := by
  have h := C1_regex_K_token ("num: ".toList) ("ABCDEFGH".toList) []
    (by decide) (by decide) (by decide) (by decide) (by decide) (by decide)
  have e1 : ("num: ".toList ++ ('K' :: ("ABCDEFGH".toList ++ [])))
      = ("num: KABCDEFGH".toList) := by decide
  have e2 : ('K' :: ("ABCDEFGH".toList)).map Char.toUpper = ("KABCDEFGH".toList) := by decide
  rw [e1, e2] at h
  exact h

/-- C9: when the strict K pattern finds nothing, `regex_pick_serial` falls
back to the lax pattern, a letter followed by 5 to 20 alphanumeric or hyphen
characters, and uppercases its leftmost match, so a non-K word of length at
least 6 in the scanned text becomes the serial; concretely the first word of
the phrase numero de serie is returned. -/
theorem C9_lax_fallback :
    (∀ text m, searchPat isKChar Char.isAlphanum false text = none →
      searchPat Char.isAlpha isClass2 false text = some m →
      regex_pick_serial text = some (m.map Char.toUpper))
    ∧ regex_pick_serial ("numero de serie".toList) = some ("NUMERO".toList) := by
  constructor
  · intro text m h1 h2
    simp only [regex_pick_serial, h1, h2]
  · decide

/-- C9 witness: the lax fallback applied at a concrete K-free string. -/
theorem C9_lax_fallback_witness :
    regex_pick_serial ("abcdef".toList) = some ("ABCDEF".toList) := by
  have h := C9_lax_fallback.1 ("abcdef".toList) ("abcdef".toList) (by decide) (by decide)
  simpa using h

/-! ### Label extractor lemmas -/

/-- A whitespace character is never in the alphanumeric-or-hyphen class. -/
theorem space_not_class2 (c : Char) (h : isSpaceChar c = true) : isClass2 c = false := by
  unfold isSpaceChar at h
  simp only [Bool.or_eq_true, beq_iff_eq] at h
  rcases h with ((((h | h) | h) | h) | h) | h <;> subst h <;> decide

/-- The label search skips a prefix on which every position fails. -/
theorem searchLabel_append_skips (pre : List Char) :
    ∀ z, labelSkips pre z = true → searchLabel (pre ++ z) = searchLabel z := by
  induction pre with
  | nil => intro z _; rfl
  | cons c p ih =>
    intro z h
    unfold labelSkips at h
    rw [Bool.and_eq_true] at h
    obtain ⟨h1, h2⟩ := h
    have hmat : matchLabelAt (c :: (p ++ z)) = none := by
      cases hv : matchLabelAt (c :: (p ++ z))
      · rfl
      · rw [hv] at h1
        simp at h1
    show searchLabel (c :: (p ++ z)) = _
    simp only [searchLabel, hmat]
    exact ih z h2

/-- The fixed fragment of claim C2: the label, a colon and one space. -/
def fragCarrete : List Char := ['C', 'a', 'r', 'r', 'e', 't', 'e', ':', ' ']

/-- C2 counterexample: on a token 21 characters long the captured group stops
at 20 characters, and an earlier occurrence of the label overrides the
claimed fragment even when its token has only 8 characters, so the result is
not independent of the surrounding text. -/
theorem C2_counterexample :
    (searchLabel ("Carrete: AAAAAAAAAAAAAAAAAAAAA".toList)
        = some ("AAAAAAAAAAAAAAAAAAAA".toList)
      ∧ ("AAAAAAAAAAAAAAAAAAAA".toList ≠ ("AAAAAAAAAAAAAAAAAAAAA".toList)))
    ∧ searchLabel ("carrete ABCDE Carrete: ABCDEFGH".toList) = some ("ABCDE".toList) := by
  decide

/-- C2 amended: for any text containing the fragment Carrete colon space
followed by a token of 8 to 20 alphanumeric-or-hyphen characters delimited
on the right, where the label pattern matches at no earlier position, the
label extractor returns that token uppercased. -/
theorem C2_label_extractor (pre tok suf : List Char)
    (htok : tok.all isClass2 = true)
    (h8 : 8 ≤ tok.length) (h20 : tok.length ≤ 20)
    (hsufc : ∀ x, suf.head? = some x → isClass2 x = false)
    (hpre : labelSkips pre (fragCarrete ++ (tok ++ suf)) = true) :
    searchLabel (pre ++ (fragCarrete ++ (tok ++ suf))) = some (tok.map Char.toUpper) := by
  have htokmem : ∀ x ∈ tok, isClass2 x = true := List.all_eq_true.mp htok
  have hrun : (tok ++ suf).takeWhile isClass2 = tok :=
    takeWhile_append_all isClass2 tok suf htokmem hsufc
  have hheadns : ∀ x, (tok ++ suf).head? = some x → isSpaceChar x = false := by
    intro x hx
    cases tok with
    | nil => simp at h8
    | cons c t =>
      have hc : c = x := by simpa using hx
      rw [← hc]
      have hcl : isClass2 c = true := htokmem c (by simp)
      cases hv : isSpaceChar c
      · rfl
      · rw [space_not_class2 c hv] at hcl
        simp at hcl
  have hdw : (' ' :: (tok ++ suf)).dropWhile isSpaceChar = tok ++ suf := by
    rw [List.dropWhile_cons]
    have : isSpaceChar ' ' = true := by decide
    rw [this]
    simp only [if_true]
    exact dropWhile_of_head_neg isSpaceChar (tok ++ suf) hheadns
  have h1 : matchAltAt altPlain (fragCarrete ++ (tok ++ suf)) = none := rfl
  have h2 : matchAltAt altAccent (fragCarrete ++ (tok ++ suf)) = none := rfl
  have h3 : matchAltAt altColon (fragCarrete ++ (tok ++ suf)) = some (tok.map Char.toUpper) := by
    have hci : ciIsPrefixOf altColon (fragCarrete ++ (tok ++ suf)) = true := rfl
    have hdrop : (fragCarrete ++ (tok ++ suf)).drop altColon.length = ' ' :: (tok ++ suf) := rfl
    unfold matchAltAt
    rw [if_pos hci]
    rw [hdrop]
    simp only [hdw, hrun]
    rw [if_pos]
    · rw [List.take_of_length_le h20]
    · omega
  have hlab : matchLabelAt (fragCarrete ++ (tok ++ suf)) = some (tok.map Char.toUpper) := by
    unfold matchLabelAt
    rw [h1, h2, h3]
  rw [searchLabel_append_skips pre (fragCarrete ++ (tok ++ suf)) hpre]
  have e : fragCarrete ++ (tok ++ suf)
      = 'C' :: (['a', 'r', 'r', 'e', 't', 'e', ':', ' '] ++ (tok ++ suf)) := rfl
  rw [e] at hlab ⊢
  simp only [searchLabel, hlab]

/-- C2 witness: the label fragment inside surrounding text yields the
uppercased token. -/
theorem C2_label_extractor_witness :
    searchLabel ("pieza lista Carrete: abc12345 fin".toList) = some ("ABC12345".toList) := by
  have h := C2_label_extractor ("pieza lista ".toList) ("abc12345".toList) (" fin".toList)
    (by decide) (by decide) (by decide) (by decide) (by decide)
  have e1 : ("pieza lista ".toList ++ (fragCarrete ++ ("abc12345".toList ++ " fin".toList)))
      = ("pieza lista Carrete: abc12345 fin".toList) := by decide
  have e2 : ("abc12345".toList).map Char.toUpper = ("ABC12345".toList) := by decide
  rw [e1, e2] at h
  exact h

end CaptureWindow
